import Mathlib

/-!
Verification of the file-discovery-and-pipeline-dispatch engine of
`screenspeak.py` (class `ScreenSpeak`).

The Python code is shallowly embedded as follows:
* a directory snapshot (one per poll of the watch loop) is a list of
  entries `(fileName, creationTime)`; creation timestamps are `Nat`;
* `os.path.join(dir, name)` is modelled by `joinPath` for a directory
  string that does not end in a separator and a relative name, which is
  how the code always calls it;
* the collaborator calls (OpenAI chat/vision, the TTS endpoint) and the
  filesystem writes are modelled as oracles (`Stages`) returning
  `Except ε _`: `Except.error e` stands for a raised Python exception;
* the watch loop `ScreenSpeak.run`, which is infinite in the source, is
  run over a finite list of directory snapshots, one snapshot per poll.
-/

/-- Model of `os.path.join(d, f)` (lines 73, 76-77, 109, 168, 221) for a
directory `d` with no trailing separator and a relative file name `f`. -/
def joinPath (d f : String) : String := d ++ "/" ++ f

/-- Characters stripped by Python's `str.rstrip()` / `str.strip()`
(ASCII whitespace: space, tab, linefeed, carriage return, vertical tab,
form feed). -/
def pyIsSpace (c : Char) : Bool :=
  c == ' ' || c == '\t' || c == '\n' || c == '\r' ||
  c == Char.ofNat 11 || c == Char.ofNat 12

/-- Model of Python `str.rstrip()`: remove trailing whitespace. -/
def pyRstrip (s : String) : String :=
  ⟨(s.data.reverse.dropWhile pyIsSpace).reverse⟩

/-- Model of Python `str.strip()`: remove leading and trailing whitespace. -/
def pyStrip (s : String) : String :=
  ⟨((s.data.dropWhile pyIsSpace).reverse.dropWhile pyIsSpace).reverse⟩

/-- Model of Python `str.endswith(suffix)` (line 72), computed
structurally on the underlying character lists. -/
def pyEndsWith (s suffix : String) : Bool :=
  List.isSuffixOf suffix.data s.data

/-- The character class kept by the sanitization on line 208:
`c.isalnum() or c in [' ', '_', '-']`. -/
def allowedFileChar (c : Char) : Bool :=
  c.isAlphanum || c == ' ' || c == '_' || c == '-'

/-- Line 208: `"".join([c for c in file_name if c.isalnum() or c in
[' ', '_', '-']]).rstrip()`. -/
def sanitizeFileName (s : String) : String :=
  pyRstrip ⟨s.data.filter allowedFileChar⟩

/-- Decidable check that a string is filesystem-safe in the sense of the
spec: every character is alphanumeric, space, underscore or hyphen, and
the string has no trailing whitespace. -/
def fileNameSafe (s : String) : Bool :=
  s.data.all allowedFileChar &&
    (match s.data.getLast? with
     | some c => !(pyIsSpace c)
     | none => true)

/-- Model of `ScreenSpeak._generate_file_name` (lines 180-210).  The
naming backend call (lines 195-200) is abstracted as its result: either a
raised exception (`Except.error`) or the list of `result.choices`
contents.  Lines 202-205: the first choice's content is `.strip()`-ped,
an empty choice list gives `"default_filename"`; line 208 sanitizes. -/
def generate_file_name {ε : Type} (backendResult : Except ε (List String)) :
    Except ε String :=
  match backendResult with
  | Except.error e => Except.error e
  | Except.ok choices =>
    let file_name :=
      match choices with
      | c :: _ => pyStrip c
      | [] => "default_filename"
    Except.ok (sanitizeFileName file_name)

/-- Lines 72-73 of `_get_latest_screenshot`: keep the entries whose name
ends in `.png`, then those whose creation time is strictly greater than
`self.start_time`. -/
def validFiles (start : Nat) (files : List (String × Nat)) : List (String × Nat) :=
  (files.filter (fun f => pyEndsWith f.1 ".png")).filter (fun f => decide (start < f.2))

/-- Model of Python `max(..., key=ctime)` (line 76): fold keeping the
current maximum, replacing it only on a strictly greater key, so the
first entry with the maximal creation time wins a tie. -/
def maxByCtime : (String × Nat) → List (String × Nat) → (String × Nat)
  | best, [] => best
  | best, f :: fs => maxByCtime (if best.2 < f.2 then f else best) fs

/-- Model of `ScreenSpeak._get_latest_screenshot` (lines 66-77) on a
snapshot where every `os.path.getctime` call succeeds: filter to `.png`
entries newer than `start`, return `None` if none remain, otherwise the
joined path of the entry with the maximal creation time. -/
def get_latest_screenshot (d : String) (start : Nat)
    (files : List (String × Nat)) : Option String :=
  match validFiles start files with
  | [] => none
  | f :: fs => some (joinPath d (maxByCtime f fs).1)

/-- One iteration of the `while True` loop in `ScreenSpeak.run`
(lines 59-64), with the pipeline side effects ignored: returns the
dispatched path (if any) and the new value of `self.last_processed`.
The Python guard `latest_screenshot and latest_screenshot !=
self.last_processed` is string truthiness (non-empty) plus inequality
with `last_processed` (initially `None`). -/
def pollStep (d : String) (start : Nat) (last : Option String)
    (dir : List (String × Nat)) : Option String × Option String :=
  match get_latest_screenshot d start dir with
  | none => (none, last)
  | some p => if p ≠ "" ∧ some p ≠ last then (some p, some p) else (none, last)

/-- The watch loop of `ScreenSpeak.run` over a finite list of directory
snapshots, one per poll; returns the list of dispatched paths in
dispatch order. -/
def runPolls (d : String) (start : Nat) :
    Option String → List (List (String × Nat)) → List String
  | _, [] => []
  | last, dir :: rest =>
    match pollStep d start last dir with
    | (some p, last') => p :: runPolls d start last' rest
    | (none, last') => runPolls d start last' rest

/-- Snapshots of an append-only directory: starting from `base`, each
poll sees the previous snapshot extended by one batch of new entries. -/
def appendSnapshots (base : List (String × Nat)) :
    List (List (String × Nat)) → List (List (String × Nat))
  | [] => []
  | b :: bs => (base ++ b) :: appendSnapshots (base ++ b) bs

/-- Snapshots of an append-only directory growing one file per poll. -/
def growSnapshots (base : List (String × Nat)) :
    List (String × Nat) → List (List (String × Nat))
  | [] => []
  | f :: fs => (base ++ [f]) :: growSnapshots (base ++ [f]) fs

/-- Outcome of the `subprocess.run(['mpg123', ...], check=True)` call on
line 176: success, a `CalledProcessError` (caught by the local handler on
lines 175-178), or any other raised exception (which propagates to the
handler in `_process_screenshot`). -/
inductive PlayOutcome (ε : Type) where
  | ok : PlayOutcome ε
  | calledProcessError : PlayOutcome ε
  | raised : ε → PlayOutcome ε
deriving DecidableEq

/-- Terminal status of one pipeline run (`_process_screenshot`):
either all stages ran, or the first raising stage's exception. -/
inductive RunStatus (ε : Type) where
  | completed : RunStatus ε
  | failed : ε → RunStatus ε
deriving DecidableEq

/-- A filesystem write performed by a pipeline run: the text analysis
file (path, content) written on lines 231-232, the screenshot copy
(source, destination) of line 110, or the audio file (path, content)
written on lines 170-171. -/
inductive WriteEvent where
  | textAnalysis : String → String → WriteEvent
  | screenshotCopy : String → String → WriteEvent
  | audioFile : String → String → WriteEvent
deriving DecidableEq

/-- Oracles for the external collaborators and fallible filesystem
operations used by `_process_screenshot`.  `Except.error e` models a
raised Python exception `e`.  `speechBackend` returns `Except.ok none`
when the TTS response is not `ok` (lines 154-158 return `None`), and
`Except.ok (some audio)` on success. -/
structure Stages (ε : Type) where
  describeBackend : String → Except ε String
  nameBackend : String → Except ε (List String)
  textWrite : String → String → Except ε Unit
  copyFile : String → String → Except ε Unit
  speechBackend : String → Except ε (Option String)
  audioWrite : String → String → Except ε Unit
  playAudio : String → PlayOutcome ε

/-- Line 45: `self.text_analysis_dir = os.path.join(self.output_dir,
"Text Analysis")`. -/
def text_analysis_dir (outputDir : String) : String :=
  joinPath outputDir "Text Analysis"

/-- Line 46: `self.audio_transcripts_dir = os.path.join(self.output_dir,
"Audio Transcripts")`. -/
def audio_transcripts_dir (outputDir : String) : String :=
  joinPath outputDir "Audio Transcripts"

/-- Line 47: `self.screenshot_output_dir = os.path.join(self.output_dir,
"Screenshots")`. -/
def screenshot_output_dir (outputDir : String) : String :=
  joinPath outputDir "Screenshots"

/-- Target path of `_save_text_analysis` (lines 220-221):
`{file_name_base}_analysis.txt` inside the text-analysis directory. -/
def save_text_analysis_path (outputDir file_name_base : String) : String :=
  joinPath (text_analysis_dir outputDir) (file_name_base ++ "_analysis.txt")

/-- Destination path of `_copy_screenshot` (lines 108-109):
`{file_name_base}.png` inside the screenshots directory. -/
def copy_screenshot_path (outputDir file_name_base : String) : String :=
  joinPath (screenshot_output_dir outputDir) (file_name_base ++ ".png")

/-- Target path of `_save_and_play_audio` (lines 167-168):
`{file_name_base}_audio.mp3` inside the audio-transcripts directory. -/
def save_audio_path (outputDir file_name_base : String) : String :=
  joinPath (audio_transcripts_dir outputDir) (file_name_base ++ "_audio.mp3")

/-- Model of `ScreenSpeak._process_screenshot` (lines 79-99): the stages
run in source order inside `try:`; the first raised exception aborts the
rest of the run and is caught by the `except Exception` handler, giving
status `failed`.  The returned list records the filesystem writes that
happened before the run ended, in order.  Stage inputs follow the code:
the text file is saved under `file_name_base + "_chatgpt"` (line 89),
the copy under `file_name_base` (line 92), the audio under
`file_name_base + "_synthesized"` (line 97), and audio work is skipped
when the TTS returned `None` (line 96). -/
def process_screenshot {ε : Type} (st : Stages ε)
    (outputDir screenshot_path : String) : RunStatus ε × List WriteEvent :=
  match st.describeBackend screenshot_path with
  | Except.error e => (RunStatus.failed e, [])
  | Except.ok desc =>
    match generate_file_name (st.nameBackend desc) with
    | Except.error e => (RunStatus.failed e, [])
    | Except.ok base =>
      let textPath := save_text_analysis_path outputDir (base ++ "_chatgpt")
      match st.textWrite textPath desc with
      | Except.error e => (RunStatus.failed e, [])
      | Except.ok _ =>
        let copyDest := copy_screenshot_path outputDir base
        match st.copyFile screenshot_path copyDest with
        | Except.error e =>
          (RunStatus.failed e, [WriteEvent.textAnalysis textPath desc])
        | Except.ok _ =>
          match st.speechBackend desc with
          | Except.error e =>
            (RunStatus.failed e,
             [WriteEvent.textAnalysis textPath desc,
              WriteEvent.screenshotCopy screenshot_path copyDest])
          | Except.ok none =>
            (RunStatus.completed,
             [WriteEvent.textAnalysis textPath desc,
              WriteEvent.screenshotCopy screenshot_path copyDest])
          | Except.ok (some audio) =>
            let audioPath := save_audio_path outputDir (base ++ "_synthesized")
            match st.audioWrite audioPath audio with
            | Except.error e =>
              (RunStatus.failed e,
               [WriteEvent.textAnalysis textPath desc,
                WriteEvent.screenshotCopy screenshot_path copyDest])
            | Except.ok _ =>
              match st.playAudio audioPath with
              | PlayOutcome.raised e =>
                (RunStatus.failed e,
                 [WriteEvent.textAnalysis textPath desc,
                  WriteEvent.screenshotCopy screenshot_path copyDest,
                  WriteEvent.audioFile audioPath audio])
              | _ =>
                (RunStatus.completed,
                 [WriteEvent.textAnalysis textPath desc,
                  WriteEvent.screenshotCopy screenshot_path copyDest,
                  WriteEvent.audioFile audioPath audio])

/-- Per-entry result of `os.path.getctime` during a poll: the timestamp,
or a raised exception (e.g. a race with deletion). -/
def filterValidE {ε : Type} (start : Nat) :
    List (String × Except ε Nat) → Except ε (List (String × Nat))
  | [] => Except.ok []
  | (_, Except.error e) :: _ => Except.error e
  | (n, Except.ok t) :: rest =>
    match filterValidE start rest with
    | Except.error e => Except.error e
    | Except.ok r => Except.ok (if start < t then (n, t) :: r else r)

/-- Model of `_get_latest_screenshot` (lines 66-77) with the exception
behaviour made explicit: the `os.listdir` call may raise
(`listing = Except.error`), and each `os.path.getctime` in the list
comprehension on line 73 may raise, in which case the comprehension —
and the whole function — raises that exception (the first one in list
order).  Within one snapshot a successful stat is stable, so the re-stat
inside `max(..., key=...)` on line 76 reuses the stored timestamp. -/
def get_latest_screenshotE {ε : Type} (d : String) (start : Nat)
    (listing : Except ε (List (String × Except ε Nat))) :
    Except ε (Option String) :=
  match listing with
  | Except.error e => Except.error e
  | Except.ok files =>
    match filterValidE start (files.filter (fun f => pyEndsWith f.1 ".png")) with
    | Except.error e => Except.error e
    | Except.ok [] => Except.ok none
    | Except.ok (f :: fs) => Except.ok (some (joinPath d (maxByCtime f fs).1))

/-- The watch loop `ScreenSpeak.run` (lines 54-64) with exceptions made
explicit, over a finite list of per-poll directory listings.  An
exception escaping `_get_latest_screenshot` propagates out of the loop
(the loop body has no handler); `_process_screenshot` never raises, so a
dispatch always records its `(path, status, writes)` triple and the loop
then sets `last_processed` to the dispatched path and continues. -/
def runPollsE {ε : Type} (st : Stages ε) (d o : String) (start : Nat) :
    Option String → List (Except ε (List (String × Except ε Nat))) →
    Except ε (List (String × RunStatus ε × List WriteEvent))
  | _, [] => Except.ok []
  | last, listing :: rest =>
    match get_latest_screenshotE d start listing with
    | Except.error e => Except.error e
    | Except.ok none => runPollsE st d o start last rest
    | Except.ok (some p) =>
      if p ≠ "" ∧ some p ≠ last then
        match runPollsE st d o start (some p) rest with
        | Except.error e => Except.error e
        | Except.ok l => Except.ok ((p, process_screenshot st o p) :: l)
      else runPollsE st d o start last rest

/-- True exactly when an `Except` computation did not raise. -/
def exceptIsOk {ε α : Type} : Except ε α → Bool
  | Except.ok _ => true
  | Except.error _ => false

/-- The dispatched paths of an effectful watch-loop execution (`none`
when the loop was terminated by an exception). -/
def dispatchedPathsE {ε : Type} :
    Except ε (List (String × RunStatus ε × List WriteEvent)) →
    Option (List String)
  | Except.error _ => none
  | Except.ok l => some (l.map (fun x => x.1))

/-- A flat model of the output filesystem's files: an association list
from path to content where `open(path, "w")` replaces any previous
entry (Python truncating write, lines 170-171 and 231-232). -/
def writeFileFS (files : List (String × String)) (p c : String) :
    List (String × String) :=
  (p, c) :: files.filter (fun kv => kv.1 ≠ p)

/-- Reading back a path from the flat filesystem model. -/
def readFileFS (files : List (String × String)) (p : String) :
    Option String :=
  (files.find? (fun kv => kv.1 == p)).map (fun kv => kv.2)

/-- Model of `os.makedirs(p, exist_ok=True)`: create the directory if it
is absent, otherwise do nothing. -/
def makedirs (dirs : List String) (p : String) : List String :=
  if p ∈ dirs then dirs else p :: dirs

/-- The directory creations for the three output categories performed in
`ScreenSpeak.__init__` (lines 50-52). -/
def screenSpeakInitDirs (outputDir : String) (dirs : List String) :
    List String :=
  makedirs (makedirs (makedirs dirs (text_analysis_dir outputDir))
      (audio_transcripts_dir outputDir))
    (screenshot_output_dir outputDir)

/-! Helper lemmas about the embedded operations. -/

lemma joinPath_inj (d a b : String) (h : joinPath d a = joinPath d b) : a = b := by
  have h2 := congrArg String.data h
  simp only [joinPath, String.data_append] at h2
  exact String.ext (List.append_cancel_left h2)

lemma joinPath_ne_empty (d f : String) : joinPath d f ≠ "" := by
  intro h
  have h2 := congrArg String.data h
  simp [joinPath, String.data_append] at h2

lemma maxByCtime_mem : ∀ (l : List (String × Nat)) (b : String × Nat),
    maxByCtime b l ∈ b :: l := by
  intro l
  induction l with
  | nil => intro b; simp [maxByCtime]
  | cons f fs ih =>
    intro b
    show maxByCtime (if b.2 < f.2 then f else b) fs ∈ b :: f :: fs
    rcases List.mem_cons.mp (ih (if b.2 < f.2 then f else b)) with h1 | h1
    · rw [h1]
      by_cases hb : b.2 < f.2 <;> simp [hb]
    · exact List.mem_cons_of_mem _ (List.mem_cons_of_mem _ h1)

lemma maxByCtime_le : ∀ (l : List (String × Nat)) (b g : String × Nat),
    g ∈ b :: l → g.2 ≤ (maxByCtime b l).2 := by
  intro l
  induction l with
  | nil =>
    intro b g hg
    rw [List.mem_singleton] at hg
    subst hg
    exact le_refl _
  | cons f fs ih =>
    intro b g hg
    show g.2 ≤ (maxByCtime (if b.2 < f.2 then f else b) fs).2
    have key : ∀ x : String × Nat, x = b ∨ x = f →
        x.2 ≤ (maxByCtime (if b.2 < f.2 then f else b) fs).2 := by
      intro x hx
      have hhead : (if b.2 < f.2 then f else b).2 ≤
          (maxByCtime (if b.2 < f.2 then f else b) fs).2 :=
        ih _ _ (List.mem_cons_self _ _)
      have hx2 : x.2 ≤ (if b.2 < f.2 then f else b).2 := by
        by_cases hb : b.2 < f.2 <;> rcases hx with rfl | rfl <;> simp [hb] <;> omega
      exact le_trans hx2 hhead
    rcases List.mem_cons.mp hg with h1 | h1
    · subst h1
      exact key _ (Or.inl rfl)
    · rcases List.mem_cons.mp h1 with h2 | h2
      · subst h2
        exact key _ (Or.inr rfl)
      · exact ih _ g (List.mem_cons_of_mem _ h2)

lemma maxByCtime_append_big : ∀ (l : List (String × Nat)) (b f : String × Nat),
    (∀ g ∈ b :: l, g.2 < f.2) → maxByCtime b (l ++ [f]) = f := by
  intro l
  induction l with
  | nil =>
    intro b f h
    have hb : b.2 < f.2 := h b (List.mem_cons_self _ _)
    show maxByCtime (if b.2 < f.2 then f else b) [] = f
    simp [maxByCtime, hb]
  | cons g gs ih =>
    intro b f h
    show maxByCtime (if b.2 < g.2 then g else b) (gs ++ [f]) = f
    apply ih
    intro x hx
    rcases List.mem_cons.mp hx with h1 | h1
    · subst h1
      by_cases hb : b.2 < g.2
      · simpa [hb] using h g (by simp)
      · simpa [hb] using h b (by simp)
    · exact h x (by simp [h1])

lemma validFiles_append (start : Nat) (l₁ l₂ : List (String × Nat)) :
    validFiles start (l₁ ++ l₂) = validFiles start l₁ ++ validFiles start l₂ := by
  simp [validFiles, List.filter_append]

lemma mem_validFiles {start : Nat} {f : String × Nat} {files : List (String × Nat)} :
    f ∈ validFiles start files ↔
      f ∈ files ∧ pyEndsWith f.1 ".png" = true ∧ start < f.2 := by
  simp only [validFiles, List.mem_filter, decide_eq_true_eq]
  tauto

lemma validFiles_singleton_of (start : Nat) (f : String × Nat)
    (hpng : pyEndsWith f.1 ".png" = true) (ht : start < f.2) :
    validFiles start [f] = [f] := by
  simp [validFiles, hpng, ht]

lemma head?_dropWhile {α : Type} (p : α → Bool) :
    ∀ (l : List α) (c : α), (l.dropWhile p).head? = some c → p c = false := by
  intro l
  induction l with
  | nil => intro c h; simp [List.dropWhile] at h
  | cons a l ih =>
    intro c h
    by_cases ha : p a
    · rw [List.dropWhile_cons_of_pos ha] at h
      exact ih c h
    · rw [List.dropWhile_cons_of_neg ha] at h
      simp at h
      subst h
      exact Bool.eq_false_iff.mpr ha

lemma mem_of_mem_dropWhile {α : Type} (p : α → Bool) :
    ∀ (l : List α) (a : α), a ∈ l.dropWhile p → a ∈ l := by
  intro l
  induction l with
  | nil => intro a h; simp [List.dropWhile] at h
  | cons x l ih =>
    intro a h
    by_cases hx : p x
    · rw [List.dropWhile_cons_of_pos hx] at h
      exact List.mem_cons_of_mem _ (ih a h)
    · rw [List.dropWhile_cons_of_neg hx] at h
      exact h

lemma count_dropWhile {α : Type} [DecidableEq α] (p : α → Bool) (c : α)
    (hc : p c = false) :
    ∀ l : List α, (l.dropWhile p).count c = l.count c := by
  intro l
  induction l with
  | nil => rfl
  | cons a l ih =>
    by_cases ha : p a
    · rw [List.dropWhile_cons_of_pos ha, ih]
      have hac : a ≠ c := by
        intro h; rw [h, hc] at ha; exact absurd ha (by simp)
      rw [List.count_cons_of_ne (Ne.symm hac)]
    · rw [List.dropWhile_cons_of_neg ha]

lemma sanitize_mem_allowed (s : String) :
    ∀ c ∈ (sanitizeFileName s).data, allowedFileChar c = true := by
  intro c hc
  simp only [sanitizeFileName, pyRstrip] at hc
  rw [List.mem_reverse] at hc
  have h1 := mem_of_mem_dropWhile pyIsSpace _ _ hc
  rw [List.mem_reverse] at h1
  exact (List.mem_filter.mp h1).2

lemma sanitize_getLast (s : String) (c : Char)
    (h : (sanitizeFileName s).data.getLast? = some c) : pyIsSpace c = false := by
  simp only [sanitizeFileName, pyRstrip] at h
  rw [List.getLast?_reverse] at h
  exact head?_dropWhile pyIsSpace _ c h

lemma fileNameSafe_sanitize (s : String) : fileNameSafe (sanitizeFileName s) = true := by
  unfold fileNameSafe
  rw [Bool.and_eq_true]
  constructor
  · rw [List.all_eq_true]
    exact sanitize_mem_allowed s
  · cases hl : (sanitizeFileName s).data.getLast? with
    | none => rfl
    | some c => simp [sanitize_getLast s c hl]

lemma sanitize_count (s : String) (c : Char)
    (hc1 : allowedFileChar c = true) (hc2 : pyIsSpace c = false) :
    (sanitizeFileName s).data.count c = s.data.count c := by
  simp only [sanitizeFileName, pyRstrip]
  rw [List.count_reverse, count_dropWhile pyIsSpace c hc2, List.count_reverse,
    List.count_filter hc1]

lemma get_latest_append_new (d : String) (start : Nat)
    (base : List (String × Nat)) (f : String × Nat)
    (hpng : pyEndsWith f.1 ".png" = true) (ht : start < f.2)
    (hmax : ∀ g ∈ validFiles start base, g.2 < f.2) :
    get_latest_screenshot d start (base ++ [f]) = some (joinPath d f.1) := by
  unfold get_latest_screenshot
  rw [validFiles_append, validFiles_singleton_of start f hpng ht]
  cases hv : validFiles start base with
  | nil => simp [maxByCtime]
  | cons g gs =>
    have hbig : ∀ x ∈ g :: gs, x.2 < f.2 := by
      intro x hx
      exact hmax x (hv ▸ hx)
    simp only [List.cons_append, List.nil_append]
    rw [maxByCtime_append_big gs g f hbig]

lemma get_latest_ne_empty (d : String) (start : Nat)
    (files : List (String × Nat)) (q : String)
    (h : get_latest_screenshot d start files = some q) : q ≠ "" := by
  unfold get_latest_screenshot at h
  cases hv : validFiles start files with
  | nil => rw [hv] at h; simp at h
  | cons f fs =>
    rw [hv] at h
    simp at h
    rw [← h]
    exact joinPath_ne_empty _ _

lemma mem_makedirs_self (dirs : List String) (p : String) : p ∈ makedirs dirs p := by
  unfold makedirs
  split
  · assumption
  · exact List.mem_cons_self _ _

lemma mem_makedirs_of_mem (dirs : List String) (p q : String) (h : q ∈ dirs) :
    q ∈ makedirs dirs p := by
  unfold makedirs
  split
  · exact h
  · exact List.mem_cons_of_mem _ h

lemma string_append_assoc (a b c : String) : a ++ b ++ c = a ++ (b ++ c) := by
  cases a with
  | mk la =>
    cases b with
    | mk lb =>
      cases c with
      | mk lc =>
        show String.mk (la ++ lb ++ lc) = String.mk (la ++ (lb ++ lc))
        rw [List.append_assoc]

/-! Claim theorems. -/

/-- C3 (counterexample): `_generate_file_name` does not implement the
claimed fallbacks.  When the naming backend's suggestion consists only of
disallowed characters the function returns the empty string — not a
50-character truncation of the description and not a timestamp — and
when the backend raises, the exception propagates instead of triggering
any fallback. -/
theorem generate_file_name_fallback_counterexample :
    generate_file_name (Except.ok ["!!!"] : Except Unit (List String)) =
      Except.ok "" ∧
    generate_file_name (Except.error () : Except Unit (List String)) =
      Except.error () :=
  ⟨rfl, rfl⟩

/-- C3 (amended): when the naming backend returns normally,
`_generate_file_name` returns the sanitized suggestion — a filesystem-safe
but possibly empty string — using `"default_filename"` when the backend
returns no choices; a backend exception propagates unchanged (it is
caught only by the per-run handler in `_process_screenshot`); there is no
50-character-truncation fallback and no timestamp fallback. -/
theorem generate_file_name_amended {ε : Type} (cs : List String) (s : String)
    (e : ε)
    (h : generate_file_name (Except.ok cs : Except ε (List String)) =
      Except.ok s) :
    fileNameSafe s = true ∧
    (cs = [] → s = "default_filename") ∧
    generate_file_name (Except.error e : Except ε (List String)) =
      Except.error e := by
  simp only [generate_file_name, Except.ok.injEq] at h
  refine ⟨?_, ?_, rfl⟩
  · rw [← h]
    exact fileNameSafe_sanitize _
  · intro hnil
    subst hnil
    rw [← h]
    decide

theorem generate_file_name_amended_witness :
    fileNameSafe "ab" = true ∧
    ((["ab!?"] : List String) = [] → "ab" = "default_filename") ∧
    generate_file_name (Except.error () : Except Unit (List String)) =
      Except.error () :=
  generate_file_name_amended ["ab!?"] "ab" () rfl

/-- C4: whenever `_get_latest_screenshot` returns a path, that path is
the join of the directory with the name of an entry that ends in `.png`
and was created strictly after the session start, and that entry's
creation time is maximal among all such eligible entries; and on any
directory with no eligible entry the function returns `None`. -/
theorem get_latest_screenshot_spec (d : String) (start : Nat)
    (files files2 : List (String × Nat)) (p : String)
    (hp : get_latest_screenshot d start files = some p)
    (hnone : ∀ g ∈ files2, pyEndsWith g.1 ".png" = true → start < g.2 → False) :
    (∃ f, f ∈ files ∧ pyEndsWith f.1 ".png" = true ∧ start < f.2 ∧
       p = joinPath d f.1 ∧
       ∀ g ∈ files, pyEndsWith g.1 ".png" = true → start < g.2 → g.2 ≤ f.2) ∧
    get_latest_screenshot d start files2 = none := by
  constructor
  · unfold get_latest_screenshot at hp
    cases hv : validFiles start files with
    | nil => rw [hv] at hp; simp at hp
    | cons f₀ fs =>
      rw [hv] at hp
      simp only [Option.some.injEq] at hp
      have hmem : maxByCtime f₀ fs ∈ validFiles start files := by
        rw [hv]; exact maxByCtime_mem fs f₀
      obtain ⟨hin, hpng, ht⟩ := mem_validFiles.mp hmem
      refine ⟨maxByCtime f₀ fs, hin, hpng, ht, hp.symm, ?_⟩
      intro g hg hgpng hgt
      have : g ∈ validFiles start files := mem_validFiles.mpr ⟨hg, hgpng, hgt⟩
      rw [hv] at this
      exact maxByCtime_le fs f₀ g this
  · unfold get_latest_screenshot
    have hv : validFiles start files2 = [] := by
      rw [List.eq_nil_iff_forall_not_mem]
      intro g hg
      obtain ⟨h1, h2, h3⟩ := mem_validFiles.mp hg
      exact hnone g h1 h2 h3
    rw [hv]

theorem get_latest_screenshot_spec_witness :
    (∃ f, f ∈ [("a.png", 5), ("b.png", 9), ("c.txt", 20)] ∧
       pyEndsWith f.1 ".png" = true ∧ 3 < f.2 ∧
       "s/b.png" = joinPath "s" f.1 ∧
       ∀ g ∈ [("a.png", 5), ("b.png", 9), ("c.txt", 20)],
         pyEndsWith g.1 ".png" = true → 3 < g.2 → g.2 ≤ f.2) ∧
    get_latest_screenshot "s" 3 [("old.png", 2), ("x.txt", 9)] = none :=
  get_latest_screenshot_spec "s" 3 [("a.png", 5), ("b.png", 9), ("c.txt", 20)]
    [("old.png", 2), ("x.txt", 9)] "s/b.png" (by decide) (by decide)

/-- C5: the sanitization in `_generate_file_name` produces a string whose
characters are all alphanumeric, space, underscore or hyphen, with no
trailing whitespace; every allowed non-whitespace character of the input
is kept with its multiplicity; and on the concrete input
`"Dashboard showing CPU usage at 42%!!"` it yields
`"Dashboard showing CPU usage at 42"`. -/
theorem sanitize_keeps_allowed_chars (s : String) (c : Char)
    (hc1 : allowedFileChar c = true) (hc2 : pyIsSpace c = false) :
    fileNameSafe (sanitizeFileName s) = true ∧
    (sanitizeFileName s).data.count c = s.data.count c ∧
    sanitizeFileName "Dashboard showing CPU usage at 42%!!" =
      "Dashboard showing CPU usage at 42" :=
  ⟨fileNameSafe_sanitize s, sanitize_count s c hc1 hc2, by decide⟩

theorem sanitize_keeps_allowed_chars_witness :
    fileNameSafe (sanitizeFileName "a! b") = true ∧
    (sanitizeFileName "a! b").data.count 'a' = ("a! b" : String).data.count 'a' ∧
    sanitizeFileName "Dashboard showing CPU usage at 42%!!" =
      "Dashboard showing CPU usage at 42" :=
  sanitize_keeps_allowed_chars "a! b" 'a' (by decide) (by decide)

/-- C8: polling is idempotent with respect to dispatch — if a poll
dispatches `p` (setting `last_processed` to `p`) and the next poll's
snapshot has the same eligible set, then `_get_latest_screenshot` again
returns `p` but the loop guard `latest_screenshot != self.last_processed`
fails, so the second poll produces no dispatch. -/
theorem poll_idempotent (d : String) (start : Nat) (last : Option String)
    (dir1 dir2 : List (String × Nat)) (p : String)
    (h1 : pollStep d start last dir1 = (some p, some p))
    (h2 : validFiles start dir2 = validFiles start dir1) :
    get_latest_screenshot d start dir2 = some p ∧
    pollStep d start (some p) dir2 = (none, some p) := by
  have hgl : get_latest_screenshot d start dir1 = some p := by
    unfold pollStep at h1
    cases gl : get_latest_screenshot d start dir1 with
    | none => rw [gl] at h1; simp at h1
    | some q =>
      rw [gl] at h1
      dsimp only at h1
      by_cases hc : q ≠ "" ∧ some q ≠ last
      · rw [if_pos hc] at h1
        simp only [Prod.mk.injEq, Option.some.injEq] at h1
        rw [h1.1]
      · rw [if_neg hc] at h1
        simp at h1
  have hgl2 : get_latest_screenshot d start dir2 = some p := by
    unfold get_latest_screenshot at hgl ⊢
    rw [h2]
    exact hgl
  refine ⟨hgl2, ?_⟩
  unfold pollStep
  rw [hgl2]
  dsimp only
  rw [if_neg]
  simp

theorem poll_idempotent_witness :
    get_latest_screenshot "s" 0 [("a.png", 1), ("b.png", 2)] = some "s/b.png" ∧
    pollStep "s" 0 (some "s/b.png") [("a.png", 1), ("b.png", 2)] =
      (none, some "s/b.png") :=
  poll_idempotent "s" 0 none [("a.png", 1), ("b.png", 2)]
    [("a.png", 1), ("b.png", 2)] "s/b.png" (by decide) rfl

/-- A concrete stage record in which every stage raises, used to
instantiate the loop-survival theorems at an extreme behaviour. -/
def failingStages : Stages Unit :=
  ⟨fun _ => Except.error (), fun _ => Except.error (),
   fun _ _ => Except.error (), fun _ _ => Except.error (),
   fun _ => Except.error (), fun _ _ => Except.error (),
   fun _ => PlayOutcome.raised ()⟩

/-- A concrete stage record in which every stage succeeds. -/
def okStages : Stages Unit :=
  ⟨fun p => Except.ok ("desc of " ++ p), fun _ => Except.ok ["Nice Name"],
   fun _ _ => Except.ok (), fun _ _ => Except.ok (),
   fun _ => Except.ok (some "mp3bytes"), fun _ _ => Except.ok (),
   fun _ => PlayOutcome.ok⟩

/-- C2: no exception raised by a pipeline stage (describe, name
derivation, text persist, screenshot copy, speech synthesis, audio
persist, playback) can terminate the watch loop: for arbitrary stage
behaviours, as long as every poll's `_get_latest_screenshot` call itself
returns normally, the whole loop execution returns normally — every
stage exception is caught by the `except Exception` handler of
`_process_screenshot`, recorded in the run's status, and the loop
proceeds to its next poll. -/
theorem stage_failure_never_terminates_loop {ε : Type} (st : Stages ε)
    (d o : String) (start : Nat) (last : Option String)
    (snaps : List (Except ε (List (String × Except ε Nat))))
    (h : ∀ s ∈ snaps, ∃ v, get_latest_screenshotE d start s = Except.ok v) :
    exceptIsOk (runPollsE st d o start last snaps) = true := by
  revert h
  induction snaps generalizing last with
  | nil => intro _; rfl
  | cons s rest ih =>
    intro h
    obtain ⟨v, hv⟩ := h s (List.mem_cons_self _ _)
    have hrest : ∀ s' ∈ rest, ∃ v', get_latest_screenshotE d start s' =
        Except.ok v' :=
      fun s' hs' => h s' (List.mem_cons_of_mem _ hs')
    simp only [runPollsE]
    rw [hv]
    cases v with
    | none => exact ih last hrest
    | some p =>
      dsimp only
      by_cases hc : p ≠ "" ∧ some p ≠ last
      · rw [if_pos hc]
        have hok := ih (some p) hrest
        cases hr : runPollsE st d o start (some p) rest with
        | error e => rw [hr] at hok; exact absurd hok (by simp [exceptIsOk])
        | ok l => rfl
      · rw [if_neg hc]
        exact ih last hrest

theorem stage_failure_never_terminates_loop_witness :
    exceptIsOk (runPollsE failingStages "s" "o" 0 none
      [Except.ok [("a.png", Except.ok 5)],
       Except.ok [("a.png", Except.ok 5)]]) = true :=
  stage_failure_never_terminates_loop failingStages "s" "o" 0 none
    [Except.ok [("a.png", Except.ok 5)], Except.ok [("a.png", Except.ok 5)]]
    (by
      intro s hs
      simp only [List.mem_cons, List.not_mem_nil, or_false] at hs
      rcases hs with h | h <;> (subst h; exact ⟨some "s/a.png", rfl⟩))

/-- C6: if the describe stage `_generate_script` raises, the run ends
with that exception and an empty write list — no text-analysis file, no
screenshot copy and no audio file are produced — and because the
exception was caught, the loop's next poll still dispatches any new
latest file `q` different from the failed one. -/
theorem describe_failure_no_artifacts {ε : Type} (st : Stages ε)
    (o p : String) (e : ε) (d : String) (start : Nat)
    (dir2 : List (String × Nat)) (q : String)
    (h : st.describeBackend p = Except.error e)
    (hq : get_latest_screenshot d start dir2 = some q)
    (hqp : q ≠ p) :
    process_screenshot st o p = (RunStatus.failed e, []) ∧
    pollStep d start (some p) dir2 = (some q, some q) := by
  constructor
  · unfold process_screenshot
    rw [h]
  · unfold pollStep
    rw [hq]
    dsimp only
    rw [if_pos]
    exact ⟨get_latest_ne_empty d start dir2 q hq, by simpa using hqp⟩

theorem describe_failure_no_artifacts_witness :
    process_screenshot failingStages "o" "s/a.png" = (RunStatus.failed (), []) ∧
    pollStep "s" 0 (some "s/a.png") [("a.png", 1), ("b.png", 2)] =
      (some "s/b.png", some "s/b.png") :=
  describe_failure_no_artifacts failingStages "o" "s/a.png" () "s" 0
    [("a.png", 1), ("b.png", 2)] "s/b.png" rfl (by decide) (by decide)

/-- C7 (counterexample): a failing `os.path.getctime` on a single
candidate file is not tolerated — with `a.png`'s stat raising and
`b.png` perfectly readable, `_get_latest_screenshot` raises instead of
dropping `a.png` and returning `b.png`, and the watch loop dies before
its second poll (whose snapshot holds a fresh `c.png`) instead of
continuing. -/
theorem stat_error_drops_file_counterexample :
    get_latest_screenshotE "s" 0
      (Except.ok [("a.png", Except.error ()),
        ("b.png", (Except.ok 5 : Except Unit Nat))]) = Except.error () ∧
    runPollsE failingStages "s" "o" 0 none
      [Except.ok [("a.png", Except.error ()), ("b.png", Except.ok 5)],
       Except.ok [("c.png", Except.ok 7)]] = Except.error () :=
  ⟨rfl, rfl⟩

/-- C7 (amended): an exception from `os.path.getctime` on a candidate
`.png` file propagates out of `_get_latest_screenshot` — the entry is
not dropped from the poll's candidate set — and any exception escaping
`_get_latest_screenshot` terminates the watch loop exactly like a
directory-listing error. -/
theorem stat_error_fatal_to_loop {ε : Type} (st : Stages ε) (d o : String)
    (start : Nat) (last : Option String)
    (listing : Except ε (List (String × Except ε Nat)))
    (rest : List (Except ε (List (String × Except ε Nat)))) (e : ε)
    (name : String) (files : List (String × Except ε Nat))
    (h : get_latest_screenshotE d start listing = Except.error e)
    (hn : pyEndsWith name ".png" = true) :
    runPollsE st d o start last (listing :: rest) = Except.error e ∧
    get_latest_screenshotE d start
      (Except.ok ((name, Except.error e) :: files)) = Except.error e := by
  constructor
  · simp only [runPollsE]
    rw [h]
  · have hfilter : List.filter (fun f => pyEndsWith f.1 ".png")
        ((name, (Except.error e : Except ε Nat)) :: files) =
        (name, Except.error e) ::
          List.filter (fun f => pyEndsWith f.1 ".png") files := by
      simp [List.filter_cons, hn]
    unfold get_latest_screenshotE
    dsimp only
    rw [hfilter]
    rfl

theorem stat_error_fatal_to_loop_witness :
    runPollsE failingStages "s" "o" 0 none
      [Except.ok [("a.png", Except.error ())],
       Except.ok [("c.png", Except.ok 7)]] = Except.error () ∧
    get_latest_screenshotE "s" 0
      (Except.ok (("a.png", Except.error ()) ::
        ([("b.png", Except.ok 5)] : List (String × Except Unit Nat)))) =
      Except.error () :=
  stat_error_fatal_to_loop failingStages "s" "o" 0 none
    (Except.ok [("a.png", Except.error ())]) [Except.ok [("c.png", Except.ok 7)]]
    () "a.png" [("b.png", Except.ok 5)] rfl (by decide)

/-- C9: a fully successful run persists exactly three artifacts, at
`outputRoot/Text Analysis/{base}_chatgpt_analysis.txt`,
`outputRoot/Screenshots/{base}.png` and
`outputRoot/Audio Transcripts/{base}_synthesized_audio.mp3`; the three
category directories are members of the directory set created by
`__init__` (idempotently, present whether or not they already existed);
and a write to an existing path overwrites it (reading the path back
yields the new content). -/
theorem artifacts_land_at_paths {ε : Type} (st : Stages ε)
    (o p desc base audio : String) (dirs0 : List String)
    (files : List (String × String)) (q c : String)
    (h1 : st.describeBackend p = Except.ok desc)
    (h2 : generate_file_name (st.nameBackend desc) = Except.ok base)
    (h3 : st.textWrite (save_text_analysis_path o (base ++ "_chatgpt")) desc =
      Except.ok ())
    (h4 : st.copyFile p (copy_screenshot_path o base) = Except.ok ())
    (h5 : st.speechBackend desc = Except.ok (some audio))
    (h6 : st.audioWrite (save_audio_path o (base ++ "_synthesized")) audio =
      Except.ok ())
    (h7 : st.playAudio (save_audio_path o (base ++ "_synthesized")) =
      PlayOutcome.ok) :
    process_screenshot st o p =
      (RunStatus.completed,
       [WriteEvent.textAnalysis (save_text_analysis_path o (base ++ "_chatgpt")) desc,
        WriteEvent.screenshotCopy p (copy_screenshot_path o base),
        WriteEvent.audioFile (save_audio_path o (base ++ "_synthesized")) audio]) ∧
    save_text_analysis_path o (base ++ "_chatgpt") =
      joinPath (text_analysis_dir o) (base ++ "_chatgpt_analysis.txt") ∧
    copy_screenshot_path o base =
      joinPath (screenshot_output_dir o) (base ++ ".png") ∧
    save_audio_path o (base ++ "_synthesized") =
      joinPath (audio_transcripts_dir o) (base ++ "_synthesized_audio.mp3") ∧
    text_analysis_dir o ∈ screenSpeakInitDirs o dirs0 ∧
    audio_transcripts_dir o ∈ screenSpeakInitDirs o dirs0 ∧
    screenshot_output_dir o ∈ screenSpeakInitDirs o dirs0 ∧
    readFileFS (writeFileFS files q c) q = some c := by
  refine ⟨?_, ?_, ?_, ?_, ?_, ?_, ?_, ?_⟩
  · unfold process_screenshot
    rw [h1]; dsimp only
    rw [h2]; dsimp only
    rw [h3]; dsimp only
    rw [h4]; dsimp only
    rw [h5]; dsimp only
    rw [h6]; dsimp only
    rw [h7]
  · have e1 : ("_chatgpt" : String) ++ "_analysis.txt" = "_chatgpt_analysis.txt" := by
      decide
    unfold save_text_analysis_path
    rw [string_append_assoc, e1]
  · rfl
  · have e2 : ("_synthesized" : String) ++ "_audio.mp3" = "_synthesized_audio.mp3" := by
      decide
    unfold save_audio_path
    rw [string_append_assoc, e2]
  · unfold screenSpeakInitDirs
    exact mem_makedirs_of_mem _ _ _ (mem_makedirs_of_mem _ _ _
      (mem_makedirs_self _ _))
  · unfold screenSpeakInitDirs
    exact mem_makedirs_of_mem _ _ _ (mem_makedirs_self _ _)
  · unfold screenSpeakInitDirs
    exact mem_makedirs_self _ _
  · unfold readFileFS writeFileFS
    rw [List.find?_cons_of_pos _ (by simp)]
    rfl

theorem artifacts_land_at_paths_witness :
    process_screenshot okStages "out" "shot.png" =
      (RunStatus.completed,
       [WriteEvent.textAnalysis
          (save_text_analysis_path "out" ("Nice Name" ++ "_chatgpt"))
          "desc of shot.png",
        WriteEvent.screenshotCopy "shot.png"
          (copy_screenshot_path "out" "Nice Name"),
        WriteEvent.audioFile
          (save_audio_path "out" ("Nice Name" ++ "_synthesized")) "mp3bytes"]) ∧
    save_text_analysis_path "out" ("Nice Name" ++ "_chatgpt") =
      joinPath (text_analysis_dir "out") ("Nice Name" ++ "_chatgpt_analysis.txt") ∧
    copy_screenshot_path "out" "Nice Name" =
      joinPath (screenshot_output_dir "out") ("Nice Name" ++ ".png") ∧
    save_audio_path "out" ("Nice Name" ++ "_synthesized") =
      joinPath (audio_transcripts_dir "out")
        ("Nice Name" ++ "_synthesized_audio.mp3") ∧
    text_analysis_dir "out" ∈ screenSpeakInitDirs "out" [] ∧
    audio_transcripts_dir "out" ∈ screenSpeakInitDirs "out" [] ∧
    screenshot_output_dir "out" ∈ screenSpeakInitDirs "out" [] ∧
    readFileFS (writeFileFS [("f", "old")] "f" "new") "f" = some "new" :=
  artifacts_land_at_paths okStages "out" "shot.png" "desc of shot.png"
    "Nice Name" "mp3bytes" [] [("f", "old")] "f" "new"
    rfl rfl rfl rfl rfl rfl rfl

/-- C1 (counterexample): when two eligible files `a.png` (ctime 1) and
`b.png` (ctime 2) both appear before the first poll, the loop only ever
dispatches `b.png`; `a.png` is skipped on that poll and on every later
poll, so not every file placed with strictly increasing timestamps is
dispatched exactly once. -/
theorem watcher_skips_file_counterexample :
    runPolls "s" 0 none
      [[("a.png", 1), ("b.png", 2)], [("a.png", 1), ("b.png", 2)],
       [("a.png", 1), ("b.png", 2)]] = ["s/b.png"] ∧
    (runPolls "s" 0 none
      [[("a.png", 1), ("b.png", 2)], [("a.png", 1), ("b.png", 2)],
       [("a.png", 1), ("b.png", 2)]]).count "s/a.png" = 0 := by
  decide

lemma runPolls_grow (d : String) (start : Nat) :
    ∀ (fs base : List (String × Nat)) (last : Option String),
    (∀ f ∈ fs, pyEndsWith f.1 ".png" = true) →
    (∀ f ∈ fs, start < f.2) →
    fs.Pairwise (fun a b => a.2 < b.2) →
    (fs.map Prod.fst).Nodup →
    (∀ g ∈ validFiles start base, ∀ f ∈ fs, g.2 < f.2) →
    (∀ f ∈ fs, last ≠ some (joinPath d f.1)) →
    runPolls d start last (growSnapshots base fs) =
      fs.map (fun f => joinPath d f.1) := by
  intro fs
  induction fs with
  | nil => intro base last _ _ _ _ _ _; rfl
  | cons f fs ih =>
    intro base last hpng ht hpair hnodup hbase hlast
    have hgl : get_latest_screenshot d start (base ++ [f]) =
        some (joinPath d f.1) :=
      get_latest_append_new d start base f (hpng f (List.mem_cons_self _ _))
        (ht f (List.mem_cons_self _ _))
        (fun g hg => hbase g hg f (List.mem_cons_self _ _))
    have hps : pollStep d start last (base ++ [f]) =
        (some (joinPath d f.1), some (joinPath d f.1)) := by
      unfold pollStep
      rw [hgl]
      dsimp only
      rw [if_pos]
      exact ⟨joinPath_ne_empty d f.1, Ne.symm (hlast f (List.mem_cons_self _ _))⟩
    simp only [growSnapshots, runPolls]
    rw [hps]
    dsimp only
    rw [List.map_cons]
    congr 1
    have hpairhead : ∀ b ∈ fs, f.2 < b.2 := (List.pairwise_cons.mp hpair).1
    have hnodhead : f.1 ∉ fs.map Prod.fst := by
      rw [List.map_cons, List.nodup_cons] at hnodup
      exact hnodup.1
    apply ih (base ++ [f]) (some (joinPath d f.1))
    · exact fun f' hf' => hpng f' (List.mem_cons_of_mem _ hf')
    · exact fun f' hf' => ht f' (List.mem_cons_of_mem _ hf')
    · exact (List.pairwise_cons.mp hpair).2
    · rw [List.map_cons, List.nodup_cons] at hnodup
      exact hnodup.2
    · intro g hg f' hf'
      rw [validFiles_append] at hg
      rcases List.mem_append.mp hg with h1 | h1
      · exact hbase g h1 f' (List.mem_cons_of_mem _ hf')
      · have : g ∈ [f] := (mem_validFiles.mp h1).1
        rw [List.mem_singleton] at this
        subst this
        exact hpairhead f' hf'
    · intro f' hf' hcontra
      rw [Option.some.injEq] at hcontra
      have : f.1 = f'.1 := joinPath_inj d _ _ hcontra
      exact hnodhead (this ▸ List.mem_map_of_mem Prod.fst hf')

/-- C1 (amended): if the eligible files appear one per poll — each poll's
snapshot extends the previous one by a single new `.png` file, with
strictly increasing creation timestamps all after session start, distinct
names, and a pre-existing directory content entirely from before session
start — then the watch loop dispatches exactly those files, each exactly
once, in increasing-timestamp order, and never dispatches a pre-start
file or a file it has already dispatched.  (The original claim fails when
two eligible files appear within one poll interval: only the latest is
dispatched and the other is skipped forever.) -/
theorem watcher_dispatches_each_once (d : String) (start : Nat)
    (base fs : List (String × Nat))
    (hbase : ∀ g ∈ base, g.2 ≤ start)
    (hpng : ∀ f ∈ fs, pyEndsWith f.1 ".png" = true)
    (ht : ∀ f ∈ fs, start < f.2)
    (hinc : fs.Pairwise (fun a b => a.2 < b.2))
    (hnames : (fs.map Prod.fst).Nodup) :
    runPolls d start none (growSnapshots base fs) =
      fs.map (fun f => joinPath d f.1) := by
  apply runPolls_grow d start fs base none hpng ht hinc hnames
  · intro g hg f hf
    obtain ⟨hgb, _, hgt⟩ := mem_validFiles.mp hg
    exact absurd hgt (not_lt.mpr (hbase g hgb))
  · intro f hf
    simp

lemma validFiles_subset (start : Nat) (l : List (String × Nat)) :
    ∀ x ∈ validFiles start l, x ∈ l :=
  fun _ hx => (mem_validFiles.mp hx).1

lemma dispatchedPathsE_independent {ε : Type} (st₁ st₂ : Stages ε)
    (d o : String) (start : Nat) :
    ∀ (snaps : List (Except ε (List (String × Except ε Nat))))
      (last : Option String),
    dispatchedPathsE (runPollsE st₁ d o start last snaps) =
      dispatchedPathsE (runPollsE st₂ d o start last snaps) := by
  intro snaps
  induction snaps with
  | nil => intro last; rfl
  | cons s rest ih =>
    intro last
    simp only [runPollsE]
    cases hg : get_latest_screenshotE d start s with
    | error e => rfl
    | ok v =>
      cases v with
      | none => exact ih last
      | some p =>
        dsimp only
        by_cases hcond : p ≠ "" ∧ some p ≠ last
        · rw [if_pos hcond, if_pos hcond]
          have h := ih (some p)
          cases h1 : runPollsE st₁ d o start (some p) rest with
          | error e1 =>
            cases h2 : runPollsE st₂ d o start (some p) rest with
            | error e2 => rfl
            | ok l2 => rw [h1, h2] at h; simp [dispatchedPathsE] at h
          | ok l1 =>
            cases h2 : runPollsE st₂ d o start (some p) rest with
            | error e2 => rw [h1, h2] at h; simp [dispatchedPathsE] at h
            | ok l2 =>
              rw [h1, h2] at h
              simp only [dispatchedPathsE, Option.some.injEq] at h ⊢
              simp [h]
        · rw [if_neg hcond, if_neg hcond]
          exact ih last

/-- Invariant carried by the no-retry induction: the loop's
`last_processed` value, together with a ghost bound `B`, is either still
unset, or records the joined path of a maximal eligible entry of the
current directory content, whose creation time is `B`. -/
def LastInv (d : String) (start : Nat) (base : List (String × Nat)) :
    Option String → Option Nat → Prop
  | none, none => True
  | some lp, some b => ∃ f, f ∈ validFiles start base ∧ lp = joinPath d f.1 ∧
      f.2 = b ∧ ∀ g ∈ validFiles start base, g.2 ≤ b
  | _, _ => False

lemma runPolls_nodup_aux (d : String) (start : Nat) :
    ∀ (bs : List (List (String × Nat))) (base : List (String × Nat))
      (last : Option String) (B : Option Nat),
    ((base ++ bs.flatten).map Prod.fst).Nodup →
    ((base ++ bs.flatten).map Prod.snd).Nodup →
    LastInv d start base last B →
    (runPolls d start last (appendSnapshots base bs)).Nodup ∧
    ∀ p ∈ runPolls d start last (appendSnapshots base bs),
      ∃ f, f ∈ validFiles start (base ++ bs.flatten) ∧ p = joinPath d f.1 ∧
        ∀ b, B = some b → b < f.2 := by
  intro bs
  induction bs with
  | nil =>
    intro base last B _ _ _
    exact ⟨List.nodup_nil, by intro p hp; simp [appendSnapshots, runPolls] at hp⟩
  | cons b bs ih =>
    intro base last B hn hc hinv
    have hflat : base ++ (b :: bs).flatten = (base ++ b) ++ bs.flatten := by
      rw [List.flatten_cons, List.append_assoc]
    rw [hflat] at hn hc ⊢
    simp only [appendSnapshots]
    have hvmono : ∀ x ∈ validFiles start base, x ∈ validFiles start (base ++ b) := by
      intro x hx
      rw [validFiles_append]
      exact List.mem_append_left _ hx
    have hvmono2 : ∀ x ∈ validFiles start (base ++ b),
        x ∈ validFiles start ((base ++ b) ++ bs.flatten) := by
      intro x hx
      rw [validFiles_append]
      exact List.mem_append_left _ hx
    cases hv : validFiles start (base ++ b) with
    | nil =>
      have hgl : get_latest_screenshot d start (base ++ b) = none := by
        unfold get_latest_screenshot
        rw [hv]
      have hps : pollStep d start last (base ++ b) = (none, last) := by
        unfold pollStep
        rw [hgl]
      simp only [runPolls]
      rw [hps]
      dsimp only
      have hbase_empty : validFiles start base = [] := by
        have := validFiles_append start base b
        rw [hv] at this
        exact (List.append_eq_nil.mp this.symm).1
      have hinv' : LastInv d start (base ++ b) last B := by
        cases last with
        | none =>
          cases B with
          | none => trivial
          | some b0 => exact absurd hinv (by simp [LastInv])
        | some lp =>
          cases B with
          | none => exact absurd hinv (by simp [LastInv])
          | some b0 =>
            obtain ⟨f, hf, -, -, -⟩ := hinv
            rw [hbase_empty] at hf
            exact absurd hf (List.not_mem_nil f)
      exact ih (base ++ b) last B hn hc hinv'
    | cons f₀ rest =>
      have hMmem : maxByCtime f₀ rest ∈ validFiles start (base ++ b) := by
        rw [hv]
        exact maxByCtime_mem rest f₀
      have hMmax : ∀ g ∈ validFiles start (base ++ b),
          g.2 ≤ (maxByCtime f₀ rest).2 := by
        intro g hg
        rw [hv] at hg
        exact maxByCtime_le rest f₀ g hg
      have hgl : get_latest_screenshot d start (base ++ b) =
          some (joinPath d (maxByCtime f₀ rest).1) := by
        unfold get_latest_screenshot
        rw [hv]
      -- bound transfer: whenever the ghost bound was set, it is at most
      -- the ctime of the new maximal entry
      have hBle : ∀ b0, B = some b0 → b0 ≤ (maxByCtime f₀ rest).2 := by
        intro b0 hB
        cases last with
        | none => rw [hB] at hinv; exact absurd hinv (by simp [LastInv])
        | some lp =>
          rw [hB] at hinv
          obtain ⟨e, he, -, he2, -⟩ := hinv
          rw [← he2]
          exact hMmax e (hvmono e he)
      by_cases hdisp : some (joinPath d (maxByCtime f₀ rest).1) ≠ last
      · -- the poll dispatches the new maximal entry
        have hps : pollStep d start last (base ++ b) =
            (some (joinPath d (maxByCtime f₀ rest).1),
             some (joinPath d (maxByCtime f₀ rest).1)) := by
          unfold pollStep
          rw [hgl]
          dsimp only
          rw [if_pos]
          exact ⟨joinPath_ne_empty _ _, hdisp⟩
        simp only [runPolls]
        rw [hps]
        dsimp only
        have hinv' : LastInv d start (base ++ b)
            (some (joinPath d (maxByCtime f₀ rest).1))
            (some (maxByCtime f₀ rest).2) :=
          ⟨maxByCtime f₀ rest, hMmem, rfl, rfl, hMmax⟩
        obtain ⟨hnodup', hspec'⟩ := ih (base ++ b)
          (some (joinPath d (maxByCtime f₀ rest).1))
          (some (maxByCtime f₀ rest).2) hn hc hinv'
        have hnotmem : joinPath d (maxByCtime f₀ rest).1 ∉
            runPolls d start (some (joinPath d (maxByCtime f₀ rest).1))
              (appendSnapshots (base ++ b) bs) := by
          intro hmem
          obtain ⟨g, hg, hpg, hbound⟩ := hspec' _ hmem
          have hlt : (maxByCtime f₀ rest).2 < g.2 := hbound _ rfl
          have hname : (maxByCtime f₀ rest).1 = g.1 := joinPath_inj d _ _ hpg
          have hMin : maxByCtime f₀ rest ∈ (base ++ b) ++ bs.flatten :=
            List.mem_append_left _ (validFiles_subset start _ _ hMmem)
          have hgin : g ∈ (base ++ b) ++ bs.flatten :=
            validFiles_subset start _ _ hg
          have : maxByCtime f₀ rest = g :=
            List.inj_on_of_nodup_map hn hMin hgin hname
          rw [this] at hlt
          exact lt_irrefl _ hlt
        constructor
        · exact List.nodup_cons.mpr ⟨hnotmem, hnodup'⟩
        · intro p hp
          rcases List.mem_cons.mp hp with hp1 | hp1
          · refine ⟨maxByCtime f₀ rest, hvmono2 _ hMmem, hp1, ?_⟩
            intro b0 hB
            rcases Nat.lt_or_ge b0 (maxByCtime f₀ rest).2 with hlt | hge
            · exact hlt
            · exfalso
              have hle := hBle b0 hB
              have hb0eq : b0 = (maxByCtime f₀ rest).2 := le_antisymm hge hle |>.symm
              cases last with
              | none => rw [hB] at hinv; exact absurd hinv (by simp [LastInv])
              | some lp =>
                rw [hB] at hinv
                obtain ⟨e, he, he1, he2, -⟩ := hinv
                have heM : e = maxByCtime f₀ rest := by
                  apply List.inj_on_of_nodup_map hc
                  · exact List.mem_append_left _
                      (validFiles_subset start _ _ (hvmono e he))
                  · exact List.mem_append_left _
                      (validFiles_subset start _ _ hMmem)
                  · rw [he2, hb0eq]
                apply hdisp
                rw [← heM, ← he1]
          · obtain ⟨g, hg, hpg, hbound⟩ := hspec' p hp1
            refine ⟨g, hg, hpg, ?_⟩
            intro b0 hB
            exact lt_of_le_of_lt (hBle b0 hB) (hbound _ rfl)
      · -- already dispatched: the guard fails, nothing is dispatched
        rw [not_ne_iff] at hdisp
        have hps : pollStep d start last (base ++ b) = (none, last) := by
          unfold pollStep
          rw [hgl]
          dsimp only
          rw [if_neg]
          intro hcond
          exact hcond.2 hdisp
        simp only [runPolls]
        rw [hps]
        dsimp only
        have hinv' : LastInv d start (base ++ b) last
            (some (maxByCtime f₀ rest).2) := by
          rw [← hdisp]
          exact ⟨maxByCtime f₀ rest, hMmem, rfl, rfl, hMmax⟩
        obtain ⟨hnodup', hspec'⟩ := ih (base ++ b) last
          (some (maxByCtime f₀ rest).2) hn hc hinv'
        constructor
        · exact hnodup'
        · intro p hp
          obtain ⟨g, hg, hpg, hbound⟩ := hspec' p hp
          refine ⟨g, hg, hpg, ?_⟩
          intro b0 hB
          exact lt_of_le_of_lt (hBle b0 hB) (hbound _ rfl)

theorem watcher_dispatches_each_once_witness :
    runPolls "s" 0 none
      (growSnapshots [("old.png", 0)] [("a.png", 1), ("b.png", 2)]) =
      List.map (fun f => joinPath "s" f.1) [("a.png", 1), ("b.png", 2)] :=
  watcher_dispatches_each_once "s" 0 [("old.png", 0)]
    [("a.png", 1), ("b.png", 2)] (by decide) (by decide) (by decide)
    (by decide) (by decide)

/-- C10 (counterexample): `last_processed` only remembers the single most
recently dispatched path, so the no-retry guarantee fails once a file is
removed from the watched directory: after dispatching `a.png` and then
`b.png`, deleting `b.png` makes `a.png` the latest again and it is
dispatched a second time — even though its first run may have failed. -/
theorem redispatch_after_deletion_counterexample :
    runPolls "s" 0 none
      [[("a.png", 1)], [("a.png", 1), ("b.png", 2)], [("a.png", 1)]] =
      ["s/a.png", "s/b.png", "s/a.png"] ∧
    ¬ (runPolls "s" 0 none
      [[("a.png", 1)], [("a.png", 1), ("b.png", 2)], [("a.png", 1)]]).Nodup := by
  decide

/-- C10 (amended): the watch loop sets `last_processed` to the dispatched
path regardless of the run's outcome — the dispatched-path sequence is
identical under any two stage behaviours, in particular when every stage
fails versus when every stage succeeds — and provided no file is ever
removed from the watched directory (append-only snapshots) and all names
and creation times are distinct, no path is ever dispatched twice, so a
file whose processing failed is never retried.  (With removals the code
can re-dispatch an already-processed file, as the counterexample
shows.) -/
theorem last_processed_set_even_on_failure {ε : Type} (d o : String)
    (start : Nat) (base : List (String × Nat))
    (bs : List (List (String × Nat))) (st₁ st₂ : Stages ε)
    (snaps : List (Except ε (List (String × Except ε Nat))))
    (lastE : Option String)
    (hn : ((base ++ bs.flatten).map Prod.fst).Nodup)
    (hc : ((base ++ bs.flatten).map Prod.snd).Nodup) :
    (runPolls d start none (appendSnapshots base bs)).Nodup ∧
    dispatchedPathsE (runPollsE st₁ d o start lastE snaps) =
      dispatchedPathsE (runPollsE st₂ d o start lastE snaps) :=
  ⟨(runPolls_nodup_aux d start bs base none none hn hc (by trivial)).1,
   dispatchedPathsE_independent st₁ st₂ d o start snaps lastE⟩

theorem last_processed_set_even_on_failure_witness :
    (runPolls "s" 0 none
      (appendSnapshots [("old.png", 0)]
        [[("a.png", 1)], [], [("b.png", 2), ("c.png", 3)]])).Nodup ∧
    dispatchedPathsE (runPollsE failingStages "s" "o" 0 none
      [Except.ok [("a.png", Except.ok 1)]]) =
      dispatchedPathsE (runPollsE okStages "s" "o" 0 none
        [Except.ok [("a.png", Except.ok 1)]]) :=
  last_processed_set_even_on_failure "s" "o" 0 [("old.png", 0)]
    [[("a.png", 1)], [], [("b.png", 2), ("c.png", 3)]] failingStages okStages
    [Except.ok [("a.png", Except.ok 1)]] none (by decide) (by decide)
